import Mathlib

/-!
Verification development for the resume parsing pipeline of this repository
(src/app/resume_parser.py).  Python strings are modelled as lists of Unicode
code points (an abbreviation Str below).  Every definition is translated
directly from the source file; the Python regular expression searches are
modelled by a small backtracking engine that explores alternatives in the
same order as the CPython re module (leftmost start position first, left
alternative first, greedy repetition), which is the order that determines
the observable result of re.search.  Character class predicates (word
characters, whitespace, lowercasing) are modelled on the ASCII plus the
Latin-1 and Latin Extended-A repertoire, which covers every character used
by the keyword table and the Portuguese/English inputs the program targets.
-/

namespace CV

/-- Python strings, modelled as lists of code points. -/
abbrev Str := List Char

/-- Injects a Lean string literal into the model. -/
def str (s : String) : Str := s.data

/-- Model of the Python str.lower method, on the ASCII and Latin-1 uppercase
letters (U+00C0 to U+00DE except the multiplication sign). -/
def charLower (c : Char) : Char :=
  if 'A' ≤ c ∧ c ≤ 'Z' then Char.ofNat (c.toNat + 32)
  else if 0xC0 ≤ c.toNat ∧ c.toNat ≤ 0xDE ∧ c.toNat ≠ 0xD7 then Char.ofNat (c.toNat + 32)
  else c

def pyLower (s : Str) : Str := s.map charLower

/-- Model of the Python regex class backslash-s and of the characters removed
by str.strip with no arguments (ASCII whitespace). -/
def isSpaceChar (c : Char) : Bool :=
  c = ' ' ∨ c = '\t' ∨ c = '\n' ∨ c = '\r' ∨ c = '\x0b' ∨ c = '\x0c'

/-- Model of the Python regex class backslash-w: alphanumerics and underscore,
restricted to ASCII plus the Latin-1 and Latin Extended-A letters. -/
def isWordChar (c : Char) : Bool :=
  c.isAlphanum ∨ c = '_' ∨
    (0xC0 ≤ c.toNat ∧ c.toNat ≤ 0x17F ∧ c.toNat ≠ 0xD7 ∧ c.toNat ≠ 0xF7)

/-- Characters stripped by str.strip with the argument consisting of a hyphen
and a space, as used for bullet markers. -/
def isDashSpace (c : Char) : Bool := c = '-' ∨ c = ' '

def trimLeftP (p : Char → Bool) (s : Str) : Str := s.dropWhile p

def trimRightP (p : Char → Bool) (s : Str) : Str := (s.reverse.dropWhile p).reverse

/-- Model of the Python str.strip() with no arguments. -/
def pyStrip (s : Str) : Str := trimRightP isSpaceChar (trimLeftP isSpaceChar s)

/-- Model of str.strip applied with the two-character argument hyphen-space. -/
def stripDashSpace (s : Str) : Str := trimRightP isDashSpace (trimLeftP isDashSpace s)

/-- Model of the Python str.splitlines (restricted to the LF, CR and CRLF
line terminators): each terminator ends a line and a trailing terminator
does not produce a final empty line. -/
def splitlinesGo : Str → Str → List Str
  | [], acc => [acc.reverse]
  | '\r' :: '\n' :: rest, acc =>
      acc.reverse :: (if rest = [] then [] else splitlinesGo rest [])
  | '\r' :: rest, acc =>
      acc.reverse :: (if rest = [] then [] else splitlinesGo rest [])
  | '\n' :: rest, acc =>
      acc.reverse :: (if rest = [] then [] else splitlinesGo rest [])
  | c :: rest, acc => splitlinesGo rest (c :: acc)

def splitlines (s : Str) : List Str := if s = [] then [] else splitlinesGo s []

/-- Model of str.split with a single-character separator: every occurrence
splits, empty fragments are kept. -/
def splitOnCharGo (sep : Char) : Str → Str → List Str
  | [], acc => [acc.reverse]
  | c :: rest, acc =>
      if c = sep then acc.reverse :: splitOnCharGo sep rest []
      else splitOnCharGo sep rest (c :: acc)

def splitOnChar (sep : Char) (s : Str) : List Str := splitOnCharGo sep s []

/-- Model of str.split with maxsplit one: the text before the first
occurrence of the separator, and optionally the text after it. -/
def splitFirstAux (sep : Char) : Str → Str → Str × Option Str
  | [], acc => (acc.reverse, none)
  | c :: rest, acc =>
      if c = sep then (acc.reverse, some rest)
      else splitFirstAux sep rest (c :: acc)

def splitFirst (sep : Char) (s : Str) : Str × Option Str := splitFirstAux sep s []

/-- Model of re.split on the education separator alternation: a spaced ASCII
hyphen, a spaced en-dash, or a comma, scanned left to right with the
alternatives tried in the declared order. -/
def eduSplitGo : Str → Str → List Str
  | [], acc => [acc.reverse]
  | ' ' :: '-' :: ' ' :: rest, acc => acc.reverse :: eduSplitGo rest []
  | ' ' :: '–' :: ' ' :: rest, acc => acc.reverse :: eduSplitGo rest []
  | ',' :: rest, acc => acc.reverse :: eduSplitGo rest []
  | c :: rest, acc => eduSplitGo rest (c :: acc)

def eduSplit (s : Str) : List Str := eduSplitGo s []

/-- Model of re.split on the project separator alternation: a spaced ASCII
hyphen, a spaced en-dash, a colon, or a comma. -/
def projSplitGo : Str → Str → List Str
  | [], acc => [acc.reverse]
  | ' ' :: '-' :: ' ' :: rest, acc => acc.reverse :: projSplitGo rest []
  | ' ' :: '–' :: ' ' :: rest, acc => acc.reverse :: projSplitGo rest []
  | ':' :: rest, acc => acc.reverse :: projSplitGo rest []
  | ',' :: rest, acc => acc.reverse :: projSplitGo rest []
  | c :: rest, acc => projSplitGo rest (c :: acc)

def projSplit (s : Str) : List Str := projSplitGo s []

/-- Model of re.split on the date separator alternation: an ASCII hyphen or
an en-dash. -/
def dateSplitGo : Str → Str → List Str
  | [], acc => [acc.reverse]
  | '-' :: rest, acc => acc.reverse :: dateSplitGo rest []
  | '–' :: rest, acc => acc.reverse :: dateSplitGo rest []
  | c :: rest, acc => dateSplitGo rest (c :: acc)

def dateSplit (s : Str) : List Str := dateSplitGo s []

/-- Model of the Python str.join with a single space separator. -/
def joinSpace (xs : List Str) : Str := List.intercalate [' '] xs

/-- Model of the Python str.join with a comma-space separator. -/
def joinCommaSpace (xs : List Str) : Str := List.intercalate (str ", ") xs

/-- Model of Python string membership (substring containment). -/
def containsSub (needle hay : Str) : Bool := decide (needle <:+: hay)

/-! ## A small regex engine

The abstract syntax covers exactly the constructs of the patterns in
src/app/resume_parser.py: character classes, concatenation, alternation and
greedy repetition.  The matcher is written continuation passing style and
explores candidate matches in the same order as the CPython backtracking
engine, so the first success it reports is the match object re.search
returns.  The fuel argument strictly bounds the call depth, which is linear
in the input length for these patterns, so the generous linear budget
chosen below never runs out. -/

inductive RE where
  | eps : RE
  | cls : (Char → Bool) → RE
  | seq : RE → RE → RE
  | alt : RE → RE → RE
  | star : RE → RE

/-- The backtracking matcher.  The continuation receives the suffix left
after the candidate match; the first success in backtracking order wins. -/
def reMatch : Nat → RE → Str → (Str → Option Str) → Option Str
  | 0, _, _, _ => none
  | _ + 1, RE.eps, s, k => k s
  | _ + 1, RE.cls p, s, k =>
      match s with
      | [] => none
      | c :: rest => if p c then k rest else none
  | n + 1, RE.seq a b, s, k => reMatch n a s (fun s1 => reMatch n b s1 k)
  | n + 1, RE.alt a b, s, k =>
      match reMatch n a s k with
      | some r => some r
      | none => reMatch n b s k
  | n + 1, RE.star r, s, k =>
      match reMatch n r s
          (fun s1 => if s1.length < s.length then reMatch n (RE.star r) s1 k else none) with
      | some r2 => some r2
      | none => k s

def reFuel (s : Str) : Nat := 100 * (s.length + 2)

/-- Model of re.search: try each start position from the left; at the first
position where the pattern matches, return the matched text (group zero). -/
def reSearchGo (re : RE) : Str → Option Str
  | [] =>
      match reMatch (reFuel []) re [] some with
      | some _ => some []
      | none => none
  | c :: s =>
      match reMatch (reFuel (c :: s)) re (c :: s) some with
      | some rest => some ((c :: s).take ((c :: s).length - rest.length))
      | none => reSearchGo re s

def reSearch (re : RE) (s : Str) : Option Str := reSearchGo re s

def reCat (rs : List RE) : RE := rs.foldr RE.seq RE.eps

def reOpt (r : RE) : RE := RE.alt r RE.eps

def rePlus (r : RE) : RE := RE.seq r (RE.star r)

/-- Exactly n copies of r. -/
def reRep (r : RE) : Nat → RE
  | 0 => RE.eps
  | n + 1 => RE.seq r (reRep r n)

/-- At most n copies of r, greedy (more copies are tried first, matching the
Python counted repetition). -/
def reUpTo (r : RE) : Nat → RE
  | 0 => RE.eps
  | n + 1 => reOpt (RE.seq r (reUpTo r n))

/-- Between lo and hi copies of r, greedy. -/
def reRange (r : RE) (lo hi : Nat) : RE := RE.seq (reRep r lo) (reUpTo r (hi - lo))

/-- A case sensitive literal. -/
def reLit (cs : Str) : RE := reCat (cs.map (fun c => RE.cls (fun x => x = c)))

/-- A case insensitive literal (the pattern text is lowercase). -/
def reLitCI (cs : Str) : RE := reCat (cs.map (fun c => RE.cls (fun x => charLower x = c)))

def digitCls : RE := RE.cls Char.isDigit

def wordCls : RE := RE.cls isWordChar

/-! ## The concrete patterns of the source

Each definition is annotated with the original pattern text. -/

/-- Email pattern from the source (a word-dot-hyphen-plus run, an at sign, a
word-hyphen run, a dot, and a word-dot-hyphen run). -/
def emailRE : RE :=
  reCat
    [ rePlus (RE.cls (fun c => isWordChar c ∨ c = '.' ∨ c = '-' ∨ c = '+')),
      RE.cls (fun c => c = '@'),
      rePlus (RE.cls (fun c => isWordChar c ∨ c = '-')),
      RE.cls (fun c => c = '.'),
      rePlus (RE.cls (fun c => isWordChar c ∨ c = '.' ∨ c = '-')) ]

/-- The space-or-hyphen separator class used inside the phone pattern. -/
def sepCls : RE := RE.cls (fun c => isSpaceChar c ∨ c = '-')

/-- Phone pattern from the source: an optional plus and one to three digit
country code with optional separator, an optional parenthesised two or three
digit area code with optional separator, four or five digits, an optional
separator, and four digits. -/
def phoneRE : RE :=
  reCat
    [ reOpt (reCat
        [ reOpt (RE.cls (fun c => c = '+')),
          reRange digitCls 1 3,
          reOpt sepCls ]),
      reOpt (reCat
        [ reOpt (RE.cls (fun c => c = '(')),
          reRange digitCls 2 3,
          reOpt (RE.cls (fun c => c = ')')),
          reOpt sepCls ]),
      reRange digitCls 4 5,
      reOpt sepCls,
      reRep digitCls 4 ]

/-- LinkedIn pattern from the source, case insensitive: the literal
linkedin.com/ followed by one or more non-space characters. -/
def linkedinRE : RE :=
  reCat [ reLitCI (str "linkedin.com/"), rePlus (RE.cls (fun c => !(isSpaceChar c))) ]

/-- Website pattern from the source, case sensitive: http, an optional s,
colon slash slash, then one or more non-space characters. -/
def websiteRE : RE :=
  reCat
    [ reLit (str "http"),
      reOpt (RE.cls (fun c => c = 's')),
      reLit (str "://"),
      rePlus (RE.cls (fun c => !(isSpaceChar c))) ]

/-- Date range pattern from the source, case insensitive: four digits or a
word followed by one whitespace and four digits, then any run of non-newline
characters, then four digits or the literals presente or atual. -/
def dateRE : RE :=
  reCat
    [ RE.alt (reRep digitCls 4)
        (reCat [ rePlus wordCls, RE.cls isSpaceChar, reRep digitCls 4 ]),
      RE.star (RE.cls (fun c => c ≠ '\n')),
      RE.alt (reRep digitCls 4)
        (RE.alt (reLitCI (str "presente")) (reLitCI (str "atual"))) ]

/-! ## Data model

Mirrors the pydantic models of src/app/models.py; only the fields the
parsing pipeline ever sets are listed (the models carry further optional
fields that the parser always leaves at their None default, modelled by the
default values here). -/

structure ContactInfo where
  full_name : Str
  email : Option Str := none
  phone : Option Str := none
  location : Option Str := none
  website : Option Str := none
  linkedin : Option Str := none
deriving DecidableEq, Repr

structure ExperienceItem where
  role : Str
  company : Option Str := none
  start_date : Option Str := none
  end_date : Option Str := none
  summary : Option Str := none
  highlights : List Str := []
deriving DecidableEq, Repr

structure EducationItem where
  degree : Str
  institution : Option Str := none
  start_date : Option Str := none
  end_date : Option Str := none
  summary : Option Str := none
deriving DecidableEq, Repr

structure ProjectItem where
  name : Str
  description : Option Str := none
  link : Option Str := none
deriving DecidableEq, Repr

structure ResumeData where
  contact : ContactInfo
  professional_summary : Option Str := none
  experiences : List ExperienceItem := []
  educations : List EducationItem := []
  skills : List Str := []
  projects : List ProjectItem := []
deriving DecidableEq, Repr

/-- The errors the parse call can surface: the ValueError raised for an
unrecognised filename extension, and the IndexError raised by indexing the
first element of an empty fragment list. -/
inductive PErr where
  | unsupportedFormat : PErr
  | indexError : PErr
deriving DecidableEq, Repr

/-! ## Section keyword table and segmentation -/

/-- The six bucket identifiers.  The five keyword-bearing sections follow the
declaration order of the keyword mapping in the source; header is the
initial cursor bucket added last. -/
inductive SectionKey where
  | header : SectionKey
  | experience : SectionKey
  | education : SectionKey
  | skills : SectionKey
  | projects : SectionKey
  | summary : SectionKey
deriving DecidableEq, Repr

def expKeywords : List Str :=
  [str "experience", str "experiência", str "experiencia", str "work history",
   str "histórico profissional", str "trajetória", str "carreira"]

def eduKeywords : List Str :=
  [str "education", str "formação", str "formacao", str "formação acadêmica",
   str "formacao academica", str "academic", str "educação", str "educacao"]

def skillKeywords : List Str :=
  [str "skills", str "competências", str "competencias", str "habilidades"]

def projKeywords : List Str := [str "projects", str "projetos", str "realizações"]

def summaryKeywords : List Str :=
  [str "summary", str "resumo", str "resumo profissional", str "perfil", str "objetivo"]

/-- The keyword mapping, in the declaration (and hence iteration) order of
the source dictionary. -/
def SECTION_KEYWORDS : List (SectionKey × List Str) :=
  [(SectionKey.experience, expKeywords),
   (SectionKey.education, eduKeywords),
   (SectionKey.skills, skillKeywords),
   (SectionKey.projects, projKeywords),
   (SectionKey.summary, summaryKeywords)]

/-- Model of the regex search for a keyword delimited by word boundaries.
Every keyword of the table begins and ends with a word character, so the
boundary assertion amounts to: the neighbouring character, when present, is
not a word character.  The search scans candidate start positions from the
left, exactly like re.search. -/
def wordBoundedSubstr (kw s : Str) : Bool :=
  (List.range (s.length + 1)).any (fun i =>
    decide ((s.drop i).take kw.length = kw)
    && (decide (i = 0) || !(isWordChar (s.getD (i - 1) ' ')))
    && (decide (s.length ≤ i + kw.length) || !(isWordChar (s.getD (i + kw.length) ' '))))

/-- Direct translation of the section detector: lowercase the line, then
return the first section of the table one of whose keywords occurs
word-bounded in it. -/
def detectSection (line : Str) : Option SectionKey :=
  SECTION_KEYWORDS.findSome? (fun p =>
    if p.2.any (fun kw => wordBoundedSubstr kw (pyLower line)) then some p.1 else none)

/-- The six keys of the section dictionary, in insertion order (the five
keyword sections, then header). -/
def sixKeys : List SectionKey :=
  [SectionKey.experience, SectionKey.education, SectionKey.skills,
   SectionKey.projects, SectionKey.summary, SectionKey.header]

def initialSections : List (SectionKey × List Str) :=
  [(SectionKey.experience, []), (SectionKey.education, []), (SectionKey.skills, []),
   (SectionKey.projects, []), (SectionKey.summary, []), (SectionKey.header, [])]

/-- Model of dict.setdefault(current, list()).append(line): append to the
entry when the key is present, otherwise add a new singleton entry. -/
def appendLine (m : List (SectionKey × List Str)) (k : SectionKey) (l : Str) :
    List (SectionKey × List Str) :=
  if m.any (fun p => p.1 = k) then
    m.map (fun p => if p.1 = k then (p.1, p.2 ++ [l]) else p)
  else m ++ [(k, [l])]

def splitSectionsGo (m : List (SectionKey × List Str)) (cur : SectionKey) :
    List Str → List (SectionKey × List Str)
  | [] => m
  | l :: ls =>
      match detectSection l with
      | some s => splitSectionsGo m s ls
      | none => splitSectionsGo (appendLine m cur l) cur ls

/-- Direct translation of the section splitter. -/
def splitSections (lines : List Str) : List (SectionKey × List Str) :=
  splitSectionsGo initialSections SectionKey.header lines

/-- Model of sections.get(key, list()). -/
def getBucket (m : List (SectionKey × List Str)) (k : SectionKey) : List Str :=
  match m.find? (fun p => p.1 = k) with
  | some p => p.2
  | none => []

/-! ## Line normalisation and the field extractors -/

/-- Direct translation of the line normaliser: split into lines, strip each,
drop the ones that become empty. -/
def normalizeLines (text : Str) : List Str :=
  ((splitlines text).map pyStrip).filter (fun l => l ≠ [])

/-- Direct translation of the contact extractor. -/
def extractContact (headerLines : List Str) : ContactInfo :=
  match headerLines with
  | [] => { full_name := str "Nome não identificado" }
  | first :: rest =>
      let details := joinSpace rest
      let locResult :=
        if (',' ∈ details) then
          (((splitOnChar ',' details).filterMap
            (fun p => let t := pyStrip p; if 2 < t.length then some t else none))).getLast?
        else none
      { full_name := first,
        email := reSearch emailRE details,
        phone := reSearch phoneRE details,
        location := locResult,
        website := reSearch websiteRE details,
        linkedin := reSearch linkedinRE details }

/-- The company and role split of an experience header: when the header
contains a hyphen, split at the first one and strip both parts (company
left, role right); otherwise no company and the whole header is the role. -/
def splitCompanyRole (header : Str) : Option Str × Str :=
  if ('-' ∈ header) then
    match splitFirst '-' header with
    | (b, some a) => (some (pyStrip b), pyStrip a)
    | (_, none) => (none, header)
  else (none, header)

/-- The start and end dates recovered from the optional date match: the
matched text is split on hyphens and en-dashes, and only a split into
exactly two fragments yields the two stripped dates. -/
def dateBounds : Option Str → Option Str × Option Str
  | some d =>
      match dateSplit d with
      | [x, y] => (some (pyStrip x), some (pyStrip y))
      | _ => (none, none)
  | none => (none, none)

/-- Removal of the matched date text from the candidate highlight lines:
every line containing the matched text verbatim is dropped. -/
def scrubLines : Option Str → List Str → List Str
  | some d, ls => ls.filter (fun l => !(containsSub d l))
  | none, ls => ls

/-- Direct translation of the per-block experience extractor.  The empty
block case is unreachable: the caller only flushes nonempty buffers. -/
def experienceFromBlock (lines : List Str) : ExperienceItem :=
  match lines with
  | [] => { role := [] }
  | header :: summaryLines =>
      let dm := reSearch dateRE header
      let cr := splitCompanyRole header
      let se := dateBounds dm
      let sl := scrubLines dm summaryLines
      { role := pyStrip cr.2,
        company := cr.1,
        start_date := se.1,
        end_date := se.2,
        highlights := (sl.filter (fun l => pyStrip l ≠ [])).map stripDashSpace }

/-- Direct translation of the buffer-and-flush loop of the experience
extractor; a synthetic empty line is appended to the input first. -/
def parseExpGo : List Str → List Str → List ExperienceItem
  | [], _ => []
  | l :: rest, buffer =>
      if pyStrip l = [] ∧ buffer ≠ [] then
        experienceFromBlock buffer :: parseExpGo rest []
      else parseExpGo rest (buffer ++ [l])

def parseExperience (lines : List Str) : List ExperienceItem :=
  parseExpGo (lines ++ [[]]) []

/-- The nonempty stripped fragments of one education line. -/
def eduFrags (l : Str) : List Str :=
  (eduSplit l).filterMap (fun p => let t := pyStrip p; if t = [] then none else some t)

/-- Direct translation of the education extractor.  Indexing the first
fragment of an empty fragment list raises IndexError in the source; that is
the error value here. -/
def parseEducation : List Str → Except PErr (List EducationItem)
  | [] => Except.ok []
  | l :: ls =>
      if l = [] then parseEducation ls
      else
        match eduFrags l with
        | [] => Except.error PErr.indexError
        | d :: rest =>
            match parseEducation ls with
            | Except.error e => Except.error e
            | Except.ok tail =>
                Except.ok
                  ({ degree := d,
                     institution := rest.head?,
                     summary := if 1 < rest.length then some (joinCommaSpace rest.tail) else none }
                    :: tail)

/-- Direct translation of the skills extractor. -/
def parseSkills (lines : List Str) : List Str :=
  let blob := joinSpace lines
  if (';' ∈ blob) then
    (splitOnChar ';' blob).filterMap (fun p => let t := pyStrip p; if t = [] then none else some t)
  else if (',' ∈ blob) then
    (splitOnChar ',' blob).filterMap (fun p => let t := pyStrip p; if t = [] then none else some t)
  else
    lines.filterMap (fun l => if pyStrip l = [] then none else some (stripDashSpace l))

/-- The nonempty stripped fragments of one project line. -/
def projFrags (l : Str) : List Str :=
  (projSplit l).filterMap (fun p => let t := pyStrip p; if t = [] then none else some t)

/-- Direct translation of the project extractor; same IndexError as the
education extractor when a line has no nonempty fragments. -/
def parseProjects : List Str → Except PErr (List ProjectItem)
  | [] => Except.ok []
  | l :: ls =>
      if l = [] then parseProjects ls
      else
        match projFrags l with
        | [] => Except.error PErr.indexError
        | n :: rest =>
            match parseProjects ls with
            | Except.error e => Except.error e
            | Except.ok tail =>
                Except.ok
                  ({ name := n,
                     description := if rest ≠ [] then some (joinCommaSpace rest) else none,
                     link := reSearch websiteRE l }
                    :: tail)

/-! ## The pipeline and its entry point -/

/-- The text-to-structure pipeline applied to the extracted text blob, in
the evaluation order of the source (contact, experience, education, skills,
projects, summary). -/
def parsePipeline (text : Str) : Except PErr ResumeData :=
  let lines := normalizeLines text
  let sections := splitSections lines
  let contact := extractContact (getBucket sections SectionKey.header)
  let experiences := parseExperience (getBucket sections SectionKey.experience)
  match parseEducation (getBucket sections SectionKey.education) with
  | Except.error e => Except.error e
  | Except.ok educations =>
      let skills := parseSkills (getBucket sections SectionKey.skills)
      match parseProjects (getBucket sections SectionKey.projects) with
      | Except.error e => Except.error e
      | Except.ok projects =>
          let summaryLines := getBucket sections SectionKey.summary
          Except.ok
            { contact := contact,
              professional_summary :=
                if summaryLines ≠ [] then some (joinSpace summaryLines) else none,
              experiences := experiences,
              educations := educations,
              skills := skills,
              projects := projects }

def pyEndsWith (suffix s : Str) : Bool := decide (suffix <:+ s)

/-! ## Specification-side description of the segmenter

bucketSpec gives the reference reading of one bucket: walk the lines with a
cursor that starts at the given section, move the cursor on heading lines
and drop them, and keep a line exactly when the cursor equals the requested
key. -/

def bucketSpec (k : SectionKey) (cur : SectionKey) : List Str → List Str
  | [] => []
  | l :: ls =>
      match detectSection l with
      | some s => bucketSpec k s ls
      | none => if cur = k then l :: bucketSpec k cur ls else bucketSpec k cur ls

/-- The recognised filename extensions, checked case insensitively. -/
def supportedFilename (filename : Str) : Bool :=
  pyEndsWith (str ".pdf") (pyLower filename)
  || pyEndsWith (str ".doc") (pyLower filename)
  || pyEndsWith (str ".docx") (pyLower filename)

/-- Direct translation of the parse entry point.  The two byte-to-text
readers are external collaborators (pdfplumber and python-docx); the text
argument stands for the blob the relevant reader returns, so both accepted
branches continue with the same pipeline. -/
def parse_resume (filename text : Str) : Except PErr ResumeData :=
  if pyEndsWith (str ".pdf") (pyLower filename) then parsePipeline text
  else if pyEndsWith (str ".doc") (pyLower filename)
      || pyEndsWith (str ".docx") (pyLower filename) then parsePipeline text
  else Except.error PErr.unsupportedFormat

/-! ## Lemmas about the segmenter -/

lemma mem_sixKeys (k : SectionKey) : k ∈ sixKeys := by cases k <;> simp [sixKeys]

lemma sixKeys_nodup : sixKeys.Nodup := by simp [sixKeys]

lemma appendLine_map (f : SectionKey → List Str) (cur : SectionKey) (l : Str) :
    appendLine (sixKeys.map (fun k => (k, f k))) cur l
      = sixKeys.map (fun k => (k, if k = cur then f k ++ [l] else f k)) := by
  have hmem : cur ∈ sixKeys := mem_sixKeys cur
  unfold appendLine
  rw [if_pos]
  · rw [List.map_map]
    apply List.map_congr_left
    intro k _
    by_cases h : k = cur <;> simp [h]
  · rw [List.any_eq_true]
    exact ⟨(cur, f cur), List.mem_map_of_mem _ hmem, by simp⟩

lemma splitSectionsGo_map (ls : List Str) :
    ∀ (cur : SectionKey) (f : SectionKey → List Str),
      splitSectionsGo (sixKeys.map (fun k => (k, f k))) cur ls
        = sixKeys.map (fun k => (k, f k ++ bucketSpec k cur ls)) := by
  induction ls with
  | nil => intro cur f; simp [splitSectionsGo, bucketSpec]
  | cons l ls ih =>
    intro cur f
    cases hd : detectSection l with
    | some s =>
      simp only [splitSectionsGo, hd, bucketSpec]
      exact ih s f
    | none =>
      simp only [splitSectionsGo, hd, bucketSpec]
      rw [appendLine_map, ih cur (fun k => if k = cur then f k ++ [l] else f k)]
      apply List.map_congr_left
      intro k _
      by_cases h : k = cur
      · subst h
        simp
      · rw [if_neg h, if_neg (fun hc => h hc.symm)]

lemma splitSections_eq (lines : List Str) :
    splitSections lines = sixKeys.map (fun k => (k, bucketSpec k SectionKey.header lines)) := by
  have h0 : initialSections = sixKeys.map (fun k => (k, (fun _ => ([] : List Str)) k)) := rfl
  unfold splitSections
  rw [h0, splitSectionsGo_map]
  simp

lemma getBucket_splitSections (lines : List Str) (k : SectionKey) :
    getBucket (splitSections lines) k = bucketSpec k SectionKey.header lines := by
  rw [splitSections_eq]
  cases k <;> simp [getBucket, sixKeys, List.find?]

lemma bucketSpec_sublist (k : SectionKey) (cur : SectionKey) (ls : List Str) :
    (bucketSpec k cur ls).Sublist ls := by
  induction ls generalizing cur with
  | nil => simp [bucketSpec]
  | cons l ls ih =>
    cases hd : detectSection l with
    | some s =>
      simp only [bucketSpec, hd]
      exact (ih s).cons l
    | none =>
      simp only [bucketSpec, hd]
      by_cases h : cur = k
      · rw [if_pos h]
        exact (ih cur).cons₂ l
      · rw [if_neg h]
        exact (ih cur).cons l

lemma bucketSpec_not_heading (k : SectionKey) (cur : SectionKey) (ls : List Str) (l : Str)
    (hmem : l ∈ bucketSpec k cur ls) : detectSection l = none := by
  induction ls generalizing cur with
  | nil => simp [bucketSpec] at hmem
  | cons x ls ih =>
    cases hd : detectSection x with
    | some s =>
      simp only [bucketSpec, hd] at hmem
      exact ih s hmem
    | none =>
      simp only [bucketSpec, hd] at hmem
      by_cases hc : cur = k
      · rw [if_pos hc] at hmem
        rcases List.mem_cons.mp hmem with h1 | h1
        · exact h1 ▸ hd
        · exact ih cur h1
      · rw [if_neg hc] at hmem
        exact ih cur hmem

lemma sum_map_add_ite (c : SectionKey → Nat) (cur : SectionKey) (d : Nat) :
    ∀ (ks : List SectionKey), ks.Nodup → cur ∈ ks →
      (ks.map (fun k => c k + if k = cur then d else 0)).sum = (ks.map c).sum + d := by
  intro ks
  induction ks with
  | nil => intro _ h; cases h
  | cons a ks ih =>
    intro hnd hmem
    rcases List.mem_cons.mp hmem with rfl | hmem'
    · have ha : cur ∉ ks := (List.nodup_cons.mp hnd).1
      have hrest : ks.map (fun k => c k + if k = cur then d else 0) = ks.map c := by
        apply List.map_congr_left
        intro k hk
        have hne : k ≠ cur := fun h => ha (h ▸ hk)
        simp [hne]
      simp only [List.map_cons, List.sum_cons, hrest, if_true]
      omega
    · have hnd' := (List.nodup_cons.mp hnd).2
      have hne : a ≠ cur := by
        intro h
        exact (List.nodup_cons.mp hnd).1 (h ▸ hmem')
      simp only [List.map_cons, List.sum_cons, if_neg hne]
      rw [ih hnd' hmem']
      omega

/-- Each non-heading line contributes to exactly one bucket: summed over the
six keys, occurrence counts agree with the non-heading lines. -/
lemma bucketSpec_count (x : Str) (ls : List Str) :
    ∀ (cur : SectionKey),
      (sixKeys.map (fun k => (bucketSpec k cur ls).count x)).sum
        = ((ls.filter (fun l => (detectSection l).isNone)).count x) := by
  induction ls with
  | nil => intro cur; simp [bucketSpec]
  | cons l ls ih =>
    intro cur
    cases hd : detectSection l with
    | some s =>
      have hfilter : ((l :: ls).filter (fun l => (detectSection l).isNone))
          = ls.filter (fun l => (detectSection l).isNone) := by
        simp [List.filter_cons, hd]
      simp only [bucketSpec, hd, hfilter]
      exact ih s
    | none =>
      have hfilter : ((l :: ls).filter (fun l => (detectSection l).isNone))
          = l :: ls.filter (fun l => (detectSection l).isNone) := by
        simp [List.filter_cons, hd]
      have hmap :
          sixKeys.map (fun k => (bucketSpec k cur (l :: ls)).count x)
            = sixKeys.map (fun k =>
                (bucketSpec k cur ls).count x + if k = cur then (if l = x then 1 else 0) else 0) := by
        apply List.map_congr_left
        intro k _
        by_cases h : cur = k
        · subst h
          simp [bucketSpec, hd, List.count_cons]
        · have h' : k ≠ cur := fun hc => h hc.symm
          simp [bucketSpec, hd, h, h']
      rw [hmap, sum_map_add_ite _ cur _ sixKeys sixKeys_nodup (mem_sixKeys cur), ih cur, hfilter]
      simp [List.count_cons]

/-! ## Word-bounded occurrence, claim side -/

/-- The claim-side reading of a word-bounded keyword occurrence: the keyword
appears as a contiguous substring and the neighbouring characters, when
present, are not word characters. -/
def OccursWW (kw s : Str) : Prop :=
  ∃ pre post, s = pre ++ kw ++ post
    ∧ (∀ c, pre.getLast? = some c → isWordChar c = false)
    ∧ (∀ c, post.head? = some c → isWordChar c = false)

lemma wordBoundedSubstr_iff (kw s : Str) :
    wordBoundedSubstr kw s = true ↔ OccursWW kw s := by
  unfold wordBoundedSubstr
  rw [List.any_eq_true]
  constructor
  · rintro ⟨i, hir, hb⟩
    rw [List.mem_range] at hir
    have hile : i ≤ s.length := by omega
    rw [Bool.and_eq_true, Bool.and_eq_true] at hb
    obtain ⟨⟨htake, hleft⟩, hright⟩ := hb
    rw [decide_eq_true_eq] at htake
    have hklen : kw.length ≤ s.length - i := by
      have := congrArg List.length htake
      simp only [List.length_take, List.length_drop] at this
      omega
    refine ⟨s.take i, s.drop (i + kw.length), ?_, ?_, ?_⟩
    · have h2 : s.drop i = kw ++ s.drop (i + kw.length) := by
        conv_lhs => rw [← List.take_append_drop kw.length (s.drop i)]
        rw [htake, List.drop_drop]
      calc s = s.take i ++ s.drop i := (List.take_append_drop i s).symm
        _ = s.take i ++ (kw ++ s.drop (i + kw.length)) := by rw [h2]
        _ = s.take i ++ kw ++ s.drop (i + kw.length) := by rw [List.append_assoc]
    · intro c hc
      have hi0 : i ≠ 0 := by
        intro h0
        rw [h0] at hc
        simp at hc
      rw [Bool.or_eq_true, decide_eq_true_eq] at hleft
      rcases hleft with h0 | hw
      · exact absurd h0 hi0
      · rw [Bool.not_eq_true'] at hw
        have hlen : (s.take i).length = i := by
          rw [List.length_take]
          omega
        have hlast : (s.take i).getLast? = (s.take i)[i - 1]? := by
          rw [List.getLast?_eq_getElem?, hlen]
        have hidx : (s.take i)[i - 1]? = s[i - 1]? := by
          rw [List.getElem?_take]
          rw [if_pos (by omega)]
        rw [hlast, hidx] at hc
        have : s.getD (i - 1) ' ' = c := by
          rw [List.getD_eq_getElem?_getD, hc]
          rfl
        rw [← this]
        exact hw
    · intro c hc
      have hhead : s[i + kw.length]? = some c := by
        rw [← List.head?_drop]
        exact hc
      have hlt : i + kw.length < s.length := by
        by_contra hge
        rw [List.getElem?_eq_none (by omega)] at hhead
        cases hhead
      rw [Bool.or_eq_true, decide_eq_true_eq] at hright
      rcases hright with h0 | hw
      · omega
      · rw [Bool.not_eq_true'] at hw
        have : s.getD (i + kw.length) ' ' = c := by
          rw [List.getD_eq_getElem?_getD, hhead]
          rfl
        rw [← this]
        exact hw
  · rintro ⟨pre, post, hs, hpre, hpost⟩
    have hslen : s.length = pre.length + kw.length + post.length := by
      rw [hs]
      simp
      omega
    refine ⟨pre.length, ?_, ?_⟩
    · rw [List.mem_range]
      omega
    · have hdrop : s.drop pre.length = kw ++ post := by
        rw [hs, List.append_assoc, List.drop_left]
      have htake : (s.drop pre.length).take kw.length = kw := by
        rw [hdrop, List.take_left]
      rw [Bool.and_eq_true, Bool.and_eq_true]
      refine ⟨⟨by rw [decide_eq_true_eq]; exact htake, ?_⟩, ?_⟩
      · rcases Nat.eq_zero_or_pos pre.length with h0 | hpos
        · rw [Bool.or_eq_true, decide_eq_true_eq]
          exact Or.inl h0
        · have hne : pre ≠ [] := by
            intro h
            rw [h] at hpos
            simp at hpos
          obtain ⟨c, hc⟩ := Option.ne_none_iff_exists'.mp
            (mt List.getLast?_eq_none_iff.mp hne)
          have hcw := hpre c hc
          have hidx : s[pre.length - 1]? = some c := by
            rw [hs, List.getElem?_append, if_pos (by simp; omega),
              List.getElem?_append, if_pos (by omega), ← List.getLast?_eq_getElem?]
            exact hc
          rw [Bool.or_eq_true]
          right
          rw [Bool.not_eq_true']
          have : s.getD (pre.length - 1) ' ' = c := by
            rw [List.getD_eq_getElem?_getD, hidx]
            rfl
          rw [this]
          exact hcw
      · cases post with
        | nil =>
          rw [Bool.or_eq_true, decide_eq_true_eq]
          left
          simp at hslen
          omega
        | cons c rest =>
          have hcw := hpost c rfl
          have hdrop2 : s.drop (pre.length + kw.length) = c :: rest := by
            have hl : (pre ++ kw).length = pre.length + kw.length := by simp
            rw [hs, ← hl, List.drop_left]
          have hidx : s[pre.length + kw.length]? = some c := by
            rw [← List.head?_drop, hdrop2]
            rfl
          rw [Bool.or_eq_true]
          right
          rw [Bool.not_eq_true']
          have : s.getD (pre.length + kw.length) ' ' = c := by
            rw [List.getD_eq_getElem?_getD, hidx]
            rfl
          rw [this]
          exact hcw

/-- The section detector finds some section exactly when some keyword of the
table occurs word-bounded in the lowercased line. -/
lemma detectSection_ne_none_iff (line : Str) :
    detectSection line ≠ none ↔
      ∃ p ∈ SECTION_KEYWORDS, ∃ kw ∈ p.2, OccursWW kw (pyLower line) := by
  unfold detectSection
  rw [Ne, List.findSome?_eq_none_iff]
  push_neg
  constructor
  · rintro ⟨p, hp, hne⟩
    refine ⟨p, hp, ?_⟩
    by_cases h : p.2.any (fun kw => wordBoundedSubstr kw (pyLower line))
    · rcases List.any_eq_true.mp h with ⟨kw, hkw, hb⟩
      exact ⟨kw, hkw, (wordBoundedSubstr_iff _ _).mp hb⟩
    · rw [Bool.not_eq_true] at h
      rw [h] at hne
      simp at hne
  · rintro ⟨p, hp, kw, hkw, hocc⟩
    refine ⟨p, hp, ?_⟩
    have hany : p.2.any (fun kw => wordBoundedSubstr kw (pyLower line)) = true :=
      List.any_eq_true.mpr ⟨kw, hkw, (wordBoundedSubstr_iff _ _).mpr hocc⟩
    rw [hany]
    simp

/-! ## Tie break order of the keyword table -/

/-- The declaration order of the five keyword sections. -/
def sectionOrder : List SectionKey :=
  [SectionKey.experience, SectionKey.education, SectionKey.skills,
   SectionKey.projects, SectionKey.summary]

def keywordsOf : SectionKey → List Str
  | SectionKey.header => []
  | SectionKey.experience => expKeywords
  | SectionKey.education => eduKeywords
  | SectionKey.skills => skillKeywords
  | SectionKey.projects => projKeywords
  | SectionKey.summary => summaryKeywords

/-- A line carries a keyword of the given section. -/
def sectionMatches (s : SectionKey) (line : Str) : Bool :=
  (keywordsOf s).any (fun kw => wordBoundedSubstr kw (pyLower line))

lemma detectSection_eq_find? (line : Str) :
    detectSection line = sectionOrder.find? (fun s => sectionMatches s line) := by
  unfold detectSection SECTION_KEYWORDS sectionOrder
  cases hE : sectionMatches SectionKey.experience line <;>
    cases hEd : sectionMatches SectionKey.education line <;>
    cases hSk : sectionMatches SectionKey.skills line <;>
    cases hPr : sectionMatches SectionKey.projects line <;>
    cases hSu : sectionMatches SectionKey.summary line <;>
    simp_all [List.findSome?_cons, List.find?_cons, sectionMatches, keywordsOf]

/-- A generic first-match property of find?: any element satisfying the
predicate is at or after the found one. -/
lemma find?_first {α : Type} [DecidableEq α] (p : α → Bool) (l : List α) (s : α)
    (hs : s ∈ l) (hp : p s = true) :
    ∃ t, l.find? p = some t ∧ p t = true ∧ l.indexOf t ≤ l.indexOf s := by
  induction l with
  | nil => cases hs
  | cons a l ih =>
    by_cases pa : p a = true
    · exact ⟨a, by rw [List.find?_cons, pa], pa, by simp⟩
    · have hsa : s ≠ a := by
        intro h
        rw [h] at hp
        exact pa hp
      have hs' : s ∈ l := by
        rcases List.mem_cons.mp hs with h | h
        · exact absurd h hsa
        · exact h
      obtain ⟨t, hf, hpt, hle⟩ := ih hs'
      have hta : t ≠ a := by
        intro h
        rw [h] at hpt
        exact pa hpt
      refine ⟨t, ?_, hpt, ?_⟩
      · rw [List.find?_cons]
        have : p a = false := Bool.not_eq_true _ |>.mp pa
        rw [this]
        exact hf
      · rw [List.indexOf_cons_ne _ (fun h => hta h.symm),
          List.indexOf_cons_ne _ (fun h => hsa h.symm)]
        omega

/-! ## Strip and normalisation lemmas -/

lemma dropWhile_head_not (p : Char → Bool) (l : Str) :
    ∀ c, (l.dropWhile p).head? = some c → p c = false := by
  induction l with
  | nil => intro c h; simp [List.dropWhile] at h
  | cons a l ih =>
    intro c h
    by_cases hp : p a = true
    · rw [List.dropWhile_cons, if_pos hp] at h
      exact ih c h
    · rw [List.dropWhile_cons, if_neg hp] at h
      have : a = c := by
        simpa using h
      rw [← this]
      exact Bool.not_eq_true _ |>.mp hp

lemma dropWhile_of_head_not (p : Char → Bool) (l : Str)
    (h : ∀ c, l.head? = some c → p c = false) : l.dropWhile p = l := by
  cases l with
  | nil => rfl
  | cons a l =>
    have : p a = false := h a rfl
    rw [List.dropWhile_cons, if_neg (by rw [this]; exact Bool.false_ne_true)]

lemma dropWhile_idem (p : Char → Bool) (l : Str) :
    (l.dropWhile p).dropWhile p = l.dropWhile p :=
  dropWhile_of_head_not p _ (dropWhile_head_not p l)

lemma trimRightP_prefix (p : Char → Bool) (l : Str) : trimRightP p l <+: l := by
  unfold trimRightP
  have h1 : l.reverse.dropWhile p <:+ l.reverse := List.dropWhile_suffix p
  have h2 : (l.reverse.dropWhile p).reverse <+: l.reverse.reverse :=
    List.reverse_prefix.mpr h1
  rwa [List.reverse_reverse] at h2

lemma trimRightP_idem (p : Char → Bool) (l : Str) :
    trimRightP p (trimRightP p l) = trimRightP p l := by
  unfold trimRightP
  rw [List.reverse_reverse, dropWhile_idem]

lemma head?_of_prefix {l₁ l₂ : Str} (h : l₁ <+: l₂) (hne : l₁ ≠ []) :
    l₂.head? = l₁.head? := by
  obtain ⟨t, ht⟩ := h
  cases l₁ with
  | nil => exact absurd rfl hne
  | cons a l => rw [← ht]; rfl

lemma pyStrip_idem (s : Str) : pyStrip (pyStrip s) = pyStrip s := by
  unfold pyStrip
  have hL : trimLeftP isSpaceChar (trimRightP isSpaceChar (trimLeftP isSpaceChar s))
      = trimRightP isSpaceChar (trimLeftP isSpaceChar s) := by
    apply dropWhile_of_head_not
    intro c hc
    have hpre : trimRightP isSpaceChar (trimLeftP isSpaceChar s) <+: trimLeftP isSpaceChar s :=
      trimRightP_prefix _ _
    have hne : trimRightP isSpaceChar (trimLeftP isSpaceChar s) ≠ [] := by
      intro h
      rw [h] at hc
      cases hc
    have := head?_of_prefix hpre hne
    rw [hc] at this
    exact dropWhile_head_not isSpaceChar s c this
  rw [hL, trimRightP_idem]

lemma mem_normalizeLines (t : Str) (l : Str) (h : l ∈ normalizeLines t) :
    pyStrip l = l ∧ l ≠ [] := by
  unfold normalizeLines at h
  rw [List.mem_filter] at h
  obtain ⟨hmem, hne⟩ := h
  rw [List.mem_map] at hmem
  obtain ⟨x, _, hx⟩ := hmem
  constructor
  · rw [← hx, pyStrip_idem]
  · simpa using hne

/-! ## Experience extractor lemmas -/

lemma parseExpGo_nonblank (ls : List Str) (h : ∀ l ∈ ls, pyStrip l ≠ []) :
    ∀ buffer, parseExpGo (ls ++ [[]]) buffer
      = if buffer ++ ls = [] then [] else [experienceFromBlock (buffer ++ ls)] := by
  induction ls with
  | nil =>
    intro buffer
    by_cases hb : buffer = []
    · subst hb
      simp [parseExpGo]
    · simp only [List.nil_append, parseExpGo]
      rw [if_pos ⟨rfl, hb⟩, if_neg (by simpa using hb)]
      simp
  | cons l ls ih =>
    intro buffer
    have hl : pyStrip l ≠ [] := h l (List.mem_cons_self l ls)
    have h' : ∀ x ∈ ls, pyStrip x ≠ [] := fun x hx => h x (List.mem_cons_of_mem _ hx)
    rw [List.cons_append]
    simp only [parseExpGo]
    rw [if_neg (fun hc => hl hc.1), ih h' (buffer ++ [l])]
    have hass : (buffer ++ [l]) ++ ls = buffer ++ l :: ls := by
      rw [List.append_assoc]
      rfl
    rw [hass]

lemma parseExperience_nonblank (ls : List Str) (h : ∀ l ∈ ls, pyStrip l ≠ []) :
    parseExperience ls = if ls = [] then [] else [experienceFromBlock ls] := by
  unfold parseExperience
  simpa using parseExpGo_nonblank ls h []

/-! ## Education and project extractor lemmas -/

lemma parseEducation_ok (ls : List Str) (h : ∀ l ∈ ls, l ≠ [] → eduFrags l ≠ []) :
    ∃ v, parseEducation ls = Except.ok v := by
  induction ls with
  | nil => exact ⟨[], rfl⟩
  | cons l ls ih =>
    obtain ⟨v, hv⟩ := ih (fun x hx => h x (List.mem_cons_of_mem _ hx))
    by_cases hl : l = []
    · exact ⟨v, by simp [parseEducation, hl, hv]⟩
    · have hf := h l (List.mem_cons_self l ls) hl
      cases hfr : eduFrags l with
      | nil => exact absurd hfr hf
      | cons d rest =>
        refine ⟨{ degree := d, institution := rest.head?,
                  summary := if 1 < rest.length then some (joinCommaSpace rest.tail) else none }
                :: v, ?_⟩
        simp [parseEducation, hl, hfr, hv]

lemma parseProjects_ok (ls : List Str) (h : ∀ l ∈ ls, l ≠ [] → projFrags l ≠ []) :
    ∃ v, parseProjects ls = Except.ok v := by
  induction ls with
  | nil => exact ⟨[], rfl⟩
  | cons l ls ih =>
    obtain ⟨v, hv⟩ := ih (fun x hx => h x (List.mem_cons_of_mem _ hx))
    by_cases hl : l = []
    · exact ⟨v, by simp [parseProjects, hl, hv]⟩
    · have hf := h l (List.mem_cons_self l ls) hl
      cases hfr : projFrags l with
      | nil => exact absurd hfr hf
      | cons n rest =>
        refine ⟨{ name := n,
                  description := if rest ≠ [] then some (joinCommaSpace rest) else none,
                  link := reSearch websiteRE l } :: v, ?_⟩
        simp [parseProjects, hl, hfr, hv]

lemma parseEducation_not_unsupported (ls : List Str) :
    parseEducation ls ≠ Except.error PErr.unsupportedFormat := by
  induction ls with
  | nil => simp [parseEducation]
  | cons l ls ih =>
    by_cases hl : l = []
    · simpa [parseEducation, hl] using ih
    · cases hfr : eduFrags l with
      | nil => simp [parseEducation, hl, hfr]
      | cons d rest =>
        cases he : parseEducation ls with
        | error e =>
          have hne : e ≠ PErr.unsupportedFormat := fun hc => ih (hc ▸ he)
          simp [parseEducation, hl, hfr, he, hne]
        | ok v => simp [parseEducation, hl, hfr, he]

lemma parseProjects_not_unsupported (ls : List Str) :
    parseProjects ls ≠ Except.error PErr.unsupportedFormat := by
  induction ls with
  | nil => simp [parseProjects]
  | cons l ls ih =>
    by_cases hl : l = []
    · simpa [parseProjects, hl] using ih
    · cases hfr : projFrags l with
      | nil => simp [parseProjects, hl, hfr]
      | cons n rest =>
        cases he : parseProjects ls with
        | error e =>
          have hne : e ≠ PErr.unsupportedFormat := fun hc => ih (hc ▸ he)
          simp [parseProjects, hl, hfr, he, hne]
        | ok v => simp [parseProjects, hl, hfr, he]

lemma parsePipeline_not_unsupported (t : Str) :
    parsePipeline t ≠ Except.error PErr.unsupportedFormat := by
  unfold parsePipeline
  cases he : parseEducation (getBucket (splitSections (normalizeLines t)) SectionKey.education) with
  | error e =>
    have hne : e ≠ PErr.unsupportedFormat :=
      fun hc => parseEducation_not_unsupported _ (hc ▸ he)
    simp [he, hne]
  | ok v =>
    cases hp : parseProjects (getBucket (splitSections (normalizeLines t)) SectionKey.projects) with
    | error e =>
      have hne : e ≠ PErr.unsupportedFormat :=
        fun hc => parseProjects_not_unsupported _ (hc ▸ hp)
      simp [he, hp, hne]
    | ok w => simp [he, hp]

/-- Successful results of the parse call, as a Boolean observation. -/
def exceptIsOk : Except PErr ResumeData → Bool
  | Except.ok _ => true
  | Except.error _ => false

lemma splitFirstAux_some (sep : Char) :
    ∀ (s : Str), sep ∈ s → ∀ acc, ∃ b a, splitFirstAux sep s acc = (b, some a) := by
  intro s
  induction s with
  | nil => intro h; cases h
  | cons c rest ih =>
    intro h acc
    by_cases hc : c = sep
    · exact ⟨acc.reverse, rest, by simp [splitFirstAux, hc]⟩
    · have h' : sep ∈ rest := by
        rcases List.mem_cons.mp h with h1 | h1
        · exact absurd h1.symm hc
        · exact h1
      obtain ⟨b, a, hba⟩ := ih h' (c :: acc)
      exact ⟨b, a, by simp [splitFirstAux, hc, hba]⟩

lemma splitFirst_some (sep : Char) (s : Str) (h : sep ∈ s) :
    ∃ b a, splitFirst sep s = (b, some a) := by
  obtain ⟨b, a, hba⟩ := splitFirstAux_some sep s h []
  exact ⟨b, a, hba⟩

/-! ## Claim theorems -/

/-- Claim C1.  The claim states that once the filename extension is accepted
the pipeline never raises and every sub-extractor degrades gracefully.  The
code contradicts this: an education line consisting of a single comma splits
into no nonempty fragments and the education extractor then indexes the
first element of an empty list, raising IndexError.  The first conjunct
evaluates the pipeline at such an input; the second proves the totality the
claim intends on every input whose nonempty education and project lines
each yield at least one nonempty fragment. -/
theorem c1_theorem :
    parsePipeline (str "education\n,") = Except.error PErr.indexError
    ∧ ∀ t : Str,
        (∀ l ∈ getBucket (splitSections (normalizeLines t)) SectionKey.education,
            l ≠ [] → eduFrags l ≠ []) →
        (∀ l ∈ getBucket (splitSections (normalizeLines t)) SectionKey.projects,
            l ≠ [] → projFrags l ≠ []) →
        exceptIsOk (parsePipeline t) = true := by
  refine ⟨rfl, ?_⟩
  intro t he hp
  obtain ⟨v, hv⟩ := parseEducation_ok _ he
  obtain ⟨w, hw⟩ := parseProjects_ok _ hp
  simp [parsePipeline, hv, hw, exceptIsOk]

/-- Witness for C1: the totality conjunct applied to a concrete document. -/
theorem c1_witness : exceptIsOk (parsePipeline (str "hello")) = true :=
  c1_theorem.2 (str "hello") (by decide) (by decide)

/-- Claim C2.  An unrecognised extension fails with the unsupported-format
error and no data (first conjunct), and the unsupported-format error never
occurs for a recognised extension (second conjunct); but it is not the only
observable failure: for the accepted filename cv.pdf and a project line
consisting of a single colon the call surfaces IndexError instead (third
conjunct), contradicting the only-failure part of the claim. -/
theorem c2_theorem :
    (∀ filename t : Str, supportedFilename filename = false →
        parse_resume filename t = Except.error PErr.unsupportedFormat)
    ∧ (∀ filename t : Str, supportedFilename filename = true →
        parse_resume filename t ≠ Except.error PErr.unsupportedFormat)
    ∧ parse_resume (str "cv.pdf") (str "projects\n:") = Except.error PErr.indexError := by
  refine ⟨?_, ?_, rfl⟩
  · intro f t h
    unfold supportedFilename at h
    rw [Bool.or_eq_false_iff, Bool.or_eq_false_iff] at h
    obtain ⟨⟨h1, h2⟩, h3⟩ := h
    simp [parse_resume, h1, h2, h3]
  · intro f t h
    unfold parse_resume
    by_cases h1 : pyEndsWith (str ".pdf") (pyLower f) = true
    · rw [if_pos h1]
      exact parsePipeline_not_unsupported t
    · have ha : pyEndsWith (str ".pdf") (pyLower f) = false := Bool.not_eq_true _ |>.mp h1
      unfold supportedFilename at h
      rw [ha] at h
      simp only [Bool.false_or] at h
      rw [if_neg h1, if_pos h]
      exact parsePipeline_not_unsupported t

/-- Witness for C2: the two conditional conjuncts applied at concrete
filenames. -/
theorem c2_witness :
    parse_resume (str "cv.txt") (str "") = Except.error PErr.unsupportedFormat
    ∧ parse_resume (str "cv.PDF") (str "x") ≠ Except.error PErr.unsupportedFormat :=
  ⟨c2_theorem.1 (str "cv.txt") (str "") (by decide),
   c2_theorem.2.1 (str "cv.PDF") (str "x") (by decide)⟩

/-- Counterexample to claim C3 as stated: on empty extracted text the
placeholder full name produced by the code is the Portuguese string Nome
não identificado, which differs from the quoted placeholder Name not
identified. -/
theorem c3_counterexample :
    (parsePipeline (str "") =
      Except.ok { contact := { full_name := str "Nome não identificado" } })
    ∧ str "Nome não identificado" ≠ str "Name not identified" :=
  ⟨rfl, by decide⟩

/-- Claim C3, amended: for empty extracted text the pipeline returns a
ResumeData whose contact has the fixed placeholder full name Nome não
identificado, every other contact field absent, no professional summary,
and all four collection lists empty. -/
theorem c3_theorem :
    parsePipeline (str "") =
      Except.ok
        { contact :=
            { full_name := str "Nome não identificado", email := none, phone := none,
              location := none, website := none, linkedin := none },
          professional_summary := none,
          experiences := [],
          educations := [],
          skills := [],
          projects := [] } := rfl

/-- Claim C7: contact extraction on the documented two-line header yields
the first line as full name, the email and phone matches, the last long
comma fragment Brasil as location, and no linkedin or website. -/
theorem c7_theorem :
    extractContact [str "Jane Doe", str "jane@example.com, (11) 98765-4321, São Paulo, Brasil"] =
      { full_name := str "Jane Doe",
        email := some (str "jane@example.com"),
        phone := some (str "(11) 98765-4321"),
        location := some (str "Brasil"),
        website := none,
        linkedin := none } := by decide

/-- Counterexample to claim C8 as stated: with neither semicolon nor comma
present, the code strips hyphens and spaces from BOTH ends of each line,
not only leading bullet markers, so the line Python followed by a space and
a hyphen loses its trailing hyphen. -/
theorem c8_counterexample :
    (';' ∉ joinSpace [str "Python -"])
    ∧ (',' ∉ joinSpace [str "Python -"])
    ∧ parseSkills [str "Python -"] = [str "Python"]
    ∧ str "Python" ≠ str "Python -" := by decide

/-- Claim C8, amended: the skills extractor checks delimiters in fixed
priority order on the space-joined blob (semicolon, then comma); with
neither present each whitespace-nonblank line becomes one skill with
leading and trailing hyphen or space characters removed from both ends.
The documented example still holds: semicolon wins over comma. -/
theorem c8_theorem :
    (∀ lines : List Str, (';' ∈ joinSpace lines) →
        parseSkills lines = (splitOnChar ';' (joinSpace lines)).filterMap
          (fun p => if pyStrip p = [] then none else some (pyStrip p)))
    ∧ (∀ lines : List Str, (';' ∉ joinSpace lines) → (',' ∈ joinSpace lines) →
        parseSkills lines = (splitOnChar ',' (joinSpace lines)).filterMap
          (fun p => if pyStrip p = [] then none else some (pyStrip p)))
    ∧ (∀ lines : List Str, (';' ∉ joinSpace lines) → (',' ∉ joinSpace lines) →
        parseSkills lines = lines.filterMap
          (fun l => if pyStrip l = [] then none else some (stripDashSpace l)))
    ∧ parseSkills [str "Python; Go, Rust"] = [str "Python", str "Go, Rust"] := by
  refine ⟨?_, ?_, ?_, by decide⟩
  · intro lines h
    simp [parseSkills, h]
  · intro lines h1 h2
    simp [parseSkills, h1, h2]
  · intro lines h1 h2
    simp [parseSkills, h1, h2]

/-- Witness for C8: the semicolon branch applied to a concrete bucket. -/
theorem c8_witness : parseSkills [str "a;b"] = [str "a", str "b"] := by
  rw [c8_theorem.1 [str "a;b"] (by decide)]
  decide

/-- Claim C9: the text-to-structure pipeline is a pure function of the
extracted text, so two runs on equal inputs return structurally equal
results; there is no hidden state in the model, mirroring the stateless
source (the keyword table is a module-level constant that is never
mutated). -/
theorem c9_theorem (t1 t2 : Str) (h : t1 = t2) : parsePipeline t1 = parsePipeline t2 := by
  rw [h]

/-- Witness for C9 at a concrete document. -/
theorem c9_witness :
    parsePipeline (str "Jane Doe") = parsePipeline (str "Jane Doe") :=
  c9_theorem (str "Jane Doe") (str "Jane Doe") rfl

/-- Claim C4: (1) a line is classified as a heading exactly when some
keyword of the table occurs in the lowercased line as a word-bounded
substring; (2) the segmenter result always carries exactly the six keys, and
each bucket equals the reference cursor walk that starts at header, drops
every heading line and appends each other line to the current bucket in
document order; (3) heading lines appear in no bucket; (4) each bucket is a
subsequence of the input, so document order is preserved; (5) summed over
the six buckets, occurrence counts match the non-heading input lines, so
every non-heading line lands in exactly one bucket. -/
theorem c4_theorem :
    (∀ line : Str, detectSection line ≠ none ↔
        ∃ p ∈ SECTION_KEYWORDS, ∃ kw ∈ p.2, OccursWW kw (pyLower line))
    ∧ (∀ lines : List Str, splitSections lines
        = sixKeys.map (fun k => (k, bucketSpec k SectionKey.header lines)))
    ∧ (∀ (lines : List Str) (k : SectionKey) (l : Str),
        l ∈ bucketSpec k SectionKey.header lines → detectSection l = none)
    ∧ (∀ (lines : List Str) (k cur : SectionKey), (bucketSpec k cur lines).Sublist lines)
    ∧ (∀ (x : Str) (lines : List Str) (cur : SectionKey),
        (sixKeys.map (fun k => (bucketSpec k cur lines).count x)).sum
          = (lines.filter (fun l => (detectSection l).isNone)).count x) :=
  ⟨detectSection_ne_none_iff,
   splitSections_eq,
   fun lines k l h => bucketSpec_not_heading k SectionKey.header lines l h,
   fun lines k cur => bucketSpec_sublist k cur lines,
   fun x lines cur => bucketSpec_count x lines cur⟩

/-- Witness for C4: the heading-free conjunct applied to a concrete content
line of a concrete document. -/
theorem c4_witness : detectSection (str "worked at Acme") = none :=
  c4_theorem.2.2.1 [str "experience", str "worked at Acme"] SectionKey.experience
    (str "worked at Acme") (by decide)

/-- Claim C5: the section detector returns the first section, in the
declared keyword-mapping order experience, education, skills, projects,
summary, whose keywords match the line; in particular a line matching
several sections resolves to the earliest declared one. -/
theorem c5_theorem :
    (∀ line : Str, detectSection line = sectionOrder.find? (fun s => sectionMatches s line))
    ∧ sectionOrder = [SectionKey.experience, SectionKey.education, SectionKey.skills,
        SectionKey.projects, SectionKey.summary]
    ∧ (∀ (line : Str), ∀ s ∈ sectionOrder, sectionMatches s line = true →
        ∃ t, detectSection line = some t ∧ sectionMatches t line = true
          ∧ sectionOrder.indexOf t ≤ sectionOrder.indexOf s) := by
  refine ⟨detectSection_eq_find?, rfl, ?_⟩
  intro line s hs hp
  obtain ⟨t, hf, hpt, hle⟩ := find?_first (fun s => sectionMatches s line) sectionOrder s hs hp
  exact ⟨t, by rw [detectSection_eq_find?]; exact hf, hpt, hle⟩

/-- Witness for C5: a line matching both the education and the skills
keywords resolves to a section no later than skills in the declared order
(education, as the first conjunct then determines). -/
theorem c5_witness :
    ∃ t, detectSection (str "education and skills") = some t
      ∧ sectionMatches t (str "education and skills") = true
      ∧ sectionOrder.indexOf t ≤ sectionOrder.indexOf SectionKey.skills :=
  c5_theorem.2.2 (str "education and skills") SectionKey.skills (by decide) (by decide)

/-- Counterexample to claim C6 as stated: the claim asserts that a found
date match is split on a hyphen or en-dash into trimmed start and end
dates, but when the matched text contains two hyphens the split has three
fragments and the code leaves both dates absent.  The header 2019-01 - 2022
is matched in full by the date pattern, its split has three fragments, and
both dates come out absent. -/
theorem c6_counterexample :
    reSearch dateRE (str "2019-01 - 2022") = some (str "2019-01 - 2022")
    ∧ (dateSplit (str "2019-01 - 2022")).length = 3
    ∧ (experienceFromBlock [str "2019-01 - 2022"]).start_date = none
    ∧ (experienceFromBlock [str "2019-01 - 2022"]).end_date = none :=
  ⟨rfl, rfl, rfl, rfl⟩

/-- Claim C6, amended: for every experience block, a header containing a
hyphen is split at the FIRST hyphen into stripped company (left) and role
(right), otherwise the whole header is the role and the company is absent;
independently, when the date pattern matches the header, the matched text
is split on hyphens and en-dashes and ONLY a split into exactly two
fragments yields the trimmed start and end dates (otherwise both stay
absent), while every remaining block line containing the matched text
verbatim is removed from the highlight candidates; without a date match
the dates are absent and no line is removed.  The documented example still
holds: the Acme Corp header yields company Acme Corp and role Senior
Engineer (2019 - 2022). -/
theorem c6_theorem :
    ∀ (header : Str) (rest : List Str),
      (('-' ∈ header) → ∃ b a, splitFirst '-' header = (b, some a)
          ∧ (experienceFromBlock (header :: rest)).company = some (pyStrip b)
          ∧ (experienceFromBlock (header :: rest)).role = pyStrip a)
      ∧ (('-' ∉ header) → (experienceFromBlock (header :: rest)).company = none
          ∧ (experienceFromBlock (header :: rest)).role = pyStrip header)
      ∧ (∀ d, reSearch dateRE header = some d →
          (∀ x y, dateSplit d = [x, y] →
              (experienceFromBlock (header :: rest)).start_date = some (pyStrip x)
              ∧ (experienceFromBlock (header :: rest)).end_date = some (pyStrip y))
          ∧ ((dateSplit d).length ≠ 2 →
              (experienceFromBlock (header :: rest)).start_date = none
              ∧ (experienceFromBlock (header :: rest)).end_date = none))
      ∧ (∀ d, reSearch dateRE header = some d →
          (experienceFromBlock (header :: rest)).highlights
            = ((rest.filter (fun l => !(containsSub d l))).filter
                (fun l => pyStrip l ≠ [])).map stripDashSpace)
      ∧ (reSearch dateRE header = none →
          (experienceFromBlock (header :: rest)).start_date = none
          ∧ (experienceFromBlock (header :: rest)).end_date = none
          ∧ (experienceFromBlock (header :: rest)).highlights
              = (rest.filter (fun l => pyStrip l ≠ [])).map stripDashSpace)
      ∧ (experienceFromBlock [str "Acme Corp - Senior Engineer (2019 - 2022)"]
          = { role := str "Senior Engineer (2019 - 2022)",
              company := some (str "Acme Corp"),
              start_date := some (str "2019"),
              end_date := some (str "2022"),
              highlights := [] }) := by
  intro header rest
  refine ⟨?_, ?_, ?_, ?_, ?_, by decide⟩
  · intro hmem
    obtain ⟨b, a, hba⟩ := splitFirst_some '-' header hmem
    refine ⟨b, a, hba, ?_, ?_⟩
    · show (splitCompanyRole header).1 = some (pyStrip b)
      rw [splitCompanyRole, if_pos hmem, hba]
    · show pyStrip (splitCompanyRole header).2 = pyStrip a
      rw [splitCompanyRole, if_pos hmem, hba]
      exact pyStrip_idem a
  · intro hmem
    constructor
    · show (splitCompanyRole header).1 = none
      rw [splitCompanyRole, if_neg hmem]
    · show pyStrip (splitCompanyRole header).2 = pyStrip header
      rw [splitCompanyRole, if_neg hmem]
  · intro d hd
    constructor
    · intro x y hxy
      constructor
      · show (dateBounds (reSearch dateRE header)).1 = some (pyStrip x)
        rw [hd, dateBounds, hxy]
      · show (dateBounds (reSearch dateRE header)).2 = some (pyStrip y)
        rw [hd, dateBounds, hxy]
    · intro hlen
      cases hsplit : dateSplit d with
      | nil =>
        constructor
        · show (dateBounds (reSearch dateRE header)).1 = none
          rw [hd, dateBounds, hsplit]
        · show (dateBounds (reSearch dateRE header)).2 = none
          rw [hd, dateBounds, hsplit]
      | cons x xs =>
        cases xs with
        | nil =>
          constructor
          · show (dateBounds (reSearch dateRE header)).1 = none
            rw [hd, dateBounds, hsplit]
          · show (dateBounds (reSearch dateRE header)).2 = none
            rw [hd, dateBounds, hsplit]
        | cons y ys =>
          cases ys with
          | nil =>
            exfalso
            apply hlen
            rw [hsplit]
            rfl
          | cons z zs =>
            constructor
            · show (dateBounds (reSearch dateRE header)).1 = none
              rw [hd, dateBounds, hsplit]
            · show (dateBounds (reSearch dateRE header)).2 = none
              rw [hd, dateBounds, hsplit]
  · intro d hd
    show ((scrubLines (reSearch dateRE header) rest).filter
        (fun l => pyStrip l ≠ [])).map stripDashSpace = _
    rw [hd, scrubLines]
  · intro hd
    refine ⟨?_, ?_, ?_⟩
    · show (dateBounds (reSearch dateRE header)).1 = none
      rw [hd, dateBounds]
    · show (dateBounds (reSearch dateRE header)).2 = none
      rw [hd, dateBounds]
    · show ((scrubLines (reSearch dateRE header) rest).filter
          (fun l => pyStrip l ≠ [])).map stripDashSpace = _
      rw [hd, scrubLines]

/-- Witness for C6: the date conjunct applied to the Acme header with its
concrete match and two-fragment split. -/
theorem c6_witness :
    (experienceFromBlock [str "Acme Corp - Senior Engineer (2019 - 2022)"]).start_date
        = some (pyStrip (str "2019 "))
    ∧ (experienceFromBlock [str "Acme Corp - Senior Engineer (2019 - 2022)"]).end_date
        = some (pyStrip (str " 2022")) :=
  (((c6_theorem (str "Acme Corp - Senior Engineer (2019 - 2022)") []).2.2.1
      (str "2019 - 2022") (by decide)).1 (str "2019 ") (str " 2022") (by decide))

/-- Claim C10: within the full pipeline the experience bucket never holds a
blank line (the normaliser strips and drops them), so the sentinel flush of
the experience extractor fires exactly once: an empty bucket yields no
items, and a nonempty bucket yields exactly ONE item built from the whole
bucket, whose header is the first bucket line and whose highlight
candidates are the remaining lines; more than one item is never produced. -/
theorem c10_theorem :
    ∀ text : Str,
      (getBucket (splitSections (normalizeLines text)) SectionKey.experience = [] →
        parseExperience (getBucket (splitSections (normalizeLines text)) SectionKey.experience)
          = [])
      ∧ (∀ (h : Str) (rest : List Str),
          getBucket (splitSections (normalizeLines text)) SectionKey.experience = h :: rest →
          parseExperience (getBucket (splitSections (normalizeLines text)) SectionKey.experience)
            = [experienceFromBlock (h :: rest)])
      ∧ (parseExperience
          (getBucket (splitSections (normalizeLines text)) SectionKey.experience)).length ≤ 1 := by
  intro text
  have hbs : getBucket (splitSections (normalizeLines text)) SectionKey.experience
      = bucketSpec SectionKey.experience SectionKey.header (normalizeLines text) :=
    getBucket_splitSections (normalizeLines text) SectionKey.experience
  have hb : ∀ l ∈ getBucket (splitSections (normalizeLines text)) SectionKey.experience,
      pyStrip l ≠ [] := by
    intro l hl
    rw [hbs] at hl
    have hsub := bucketSpec_sublist SectionKey.experience SectionKey.header (normalizeLines text)
    obtain ⟨hstrip, hne⟩ := mem_normalizeLines text l (hsub.subset hl)
    rw [hstrip]
    exact hne
  have hmain := parseExperience_nonblank _ hb
  refine ⟨?_, ?_, ?_⟩
  · intro h
    rw [hmain, if_pos h]
  · intro h rest hr
    rw [hmain, if_neg (by rw [hr]; simp), hr]
  · rw [hmain]
    split <;> simp

/-- Witness for C10: the one-item conjunct applied to a concrete document
whose experience bucket holds a header and one highlight line. -/
theorem c10_witness :
    parseExperience
        (getBucket (splitSections (normalizeLines (str "experience\nAcme\ndid x")))
          SectionKey.experience)
      = [experienceFromBlock [str "Acme", str "did x"]] :=
  (c10_theorem (str "experience\nAcme\ndid x")).2.1 (str "Acme") [str "did x"] (by decide)

end CV
